import Mathlib

/-!
Verification of the csvsee date/time format inference and parsing engine
(`csvsee/dates.py`) and the log-scanning temporal bucketer
(`csvsee/utils.py`, `grep_files`).

The Python source is shallowly embedded:

* Python 2 strings become `String` / `List Char`.
* `re` regular expressions, as used by `dates.py` (`re.compile` on the
  patterns generated by `format_regexp`, plus the literal match expressions
  compiled in `grep_files`), become the `RE` datatype below with a
  backtracking matcher whose result list is ordered exactly like the
  backtracking order of the Python engine (alternatives left to right,
  greedy quantifiers longest first).
* exceptions (`CannotParse`, `ValueError`) become `Except PErr`.
* `datetime.datetime` becomes the `DateTime` structure; the library
  functions `datetime.strptime`, `time.mktime` and
  `datetime.fromtimestamp` are modelled as naive local time with a zero
  UTC offset on the proleptic Gregorian calendar.
-/

/-- Python `str.isspace` character set (whitespace for `str.split`/`strip`). -/
def pyIsSpace (c : Char) : Bool :=
  c = ' ' || c = '\t' || c = '\n' || c = '\r' || c = '\x0b' || c = '\x0c'

/-- Lowercase an ASCII letter; other characters unchanged.  This is how
`re.IGNORECASE` and Python 2 `str.lower` behave on the ASCII inputs used here. -/
def lowerAscii (c : Char) : Char :=
  if 'A' ≤ c ∧ c ≤ 'Z' then Char.ofNat (c.toNat + 32) else c

/-- Case-insensitive character equality (ASCII). -/
def ciEq (a b : Char) : Bool := lowerAscii a = lowerAscii b

/-- The traversal behind Python `str.split()`: accumulate the current token
(in reverse) and emit it at each whitespace run or at the end. -/
def splitWSAcc : List Char → List Char → List (List Char)
  | [], acc => if acc = [] then [] else [acc.reverse]
  | c :: cs, acc =>
    if pyIsSpace c then
      if acc = [] then splitWSAcc cs [] else acc.reverse :: splitWSAcc cs []
    else splitWSAcc cs (c :: acc)

/-- Python `str.split()` (no separator): split on runs of whitespace,
dropping empty tokens. -/
def splitWS (cs : List Char) : List (List Char) := splitWSAcc cs []

/-- Python `string.split()` on a `String`. -/
def pySplit (s : String) : List String := (splitWS s.data).map String.mk

/-- Python `' '.join(tokens)`. -/
def joinSpace : List String → String
  | [] => ""
  | [t] => t
  | t :: ts => t ++ " " ++ joinSpace ts

/-- Python `str.strip()`. -/
def pyStrip (s : String) : String :=
  String.mk (((s.data.dropWhile pyIsSpace).reverse.dropWhile pyIsSpace).reverse)

/-- Python `str.count(c)` for a single-character argument. -/
def countChar (s : String) (c : Char) : Nat :=
  (s.data.filter (fun x => x = c)).length

/-! ## Regular expressions

`RE` covers exactly the constructs appearing in the patterns that
`csvsee.dates` builds (`format_regexp`) and the patterns `grep_files`
compiles from its match strings (literal text).  Named groups are not
represented: `dates.guess_format` only uses `regexp.search(string)` as a
boolean, and `grep_files` only uses `expr.search(line)` as a boolean. -/

inductive RE
  /-- matches the empty string -/
  | eps
  /-- `.` — any character -/
  | any
  /-- a literal character under `re.IGNORECASE` -/
  | lit (c : Char)
  /-- a literal character, case-sensitive (no `IGNORECASE` flag) -/
  | chr (c : Char)
  /-- character class `[lo-hi]` -/
  | cls (lo hi : Char)
  /-- concatenation -/
  | seq (a b : RE)
  /-- alternation `a|b`, `a` preferred -/
  | alt (a b : RE)
  /-- `a?`, greedy -/
  | opt (a : RE)
  /-- `\d+`, greedy -/
  | plusDigit
  /-- a literal word under `re.IGNORECASE` -/
  | word (s : String)
deriving Repr, DecidableEq

/-- Remainders after consuming one or more leading digits, longest
consumption first (the backtracking order of greedy `\d+`). -/
def digitSuffixes : List Char → List (List Char)
  | [] => []
  | c :: cs => if c.isDigit then digitSuffixes cs ++ [cs] else []

/-- Strip a case-insensitive literal prefix. -/
def dropPrefixCI : List Char → List Char → Option (List Char)
  | [], cs => some cs
  | _ :: _, [] => none
  | p :: ps, c :: cs => if ciEq p c then dropPrefixCI ps cs else none

/-- All ways the expression can match a prefix of the input, as the list of
remainders, in the Python backtracking engine's preference order. -/
def RE.matchFrom : RE → List Char → List (List Char)
  | .eps, cs => [cs]
  | .any, [] => []
  | .any, _ :: cs => [cs]
  | .lit c, [] => (fun _ => []) c
  | .lit c, x :: cs => if ciEq c x then [cs] else []
  | .chr c, [] => (fun _ => []) c
  | .chr c, x :: cs => if c = x then [cs] else []
  | .cls _ _, [] => []
  | .cls lo hi, x :: cs => if lo ≤ x ∧ x ≤ hi then [cs] else []
  | .seq a b, cs => (a.matchFrom cs).flatMap b.matchFrom
  | .alt a b, cs => a.matchFrom cs ++ b.matchFrom cs
  | .opt a, cs => a.matchFrom cs ++ [cs]
  | .plusDigit, cs => digitSuffixes cs
  | .word s, cs => (dropPrefixCI s.data cs).toList

/-- Does the expression match a prefix of `cs`? -/
def RE.matchedAt (re : RE) (cs : List Char) : Bool :=
  !(re.matchFrom cs).isEmpty

/-- Python `pattern.search(string)` as a boolean: does the expression match
starting at any position (also the end-of-string position)? -/
def RE.searchL (re : RE) : List Char → Bool
  | [] => re.matchedAt []
  | c :: cs => re.matchedAt (c :: cs) || re.searchL cs

/-- `pattern.search` on a `String`. -/
def RE.search (re : RE) (s : String) : Bool := re.searchL s.data

/-! ## `csvsee.dates`: the candidate format grammar (`dates.py`) -/

/-- `dates._months`. -/
def pymonths : List String :=
  ["january", "february", "march", "april", "may", "june",
   "july", "august", "september", "october", "november", "december"]

/-- Alternation `w1|w2|...` of case-insensitive words (the month-name and
am/pm regexp fragments are such alternations). -/
def wordAlt : List String → RE
  | [] => .eps
  | [w] => .word w
  | w :: ws => .alt (.word w) (wordAlt ws)

/-- `\d` -/
def reDigit : RE := .cls '0' '9'

/-- `dates._regexps`: formatting directive to regular-expression fragment.
Each right-hand side transcribes the pattern string in `dates.py`
(named groups dropped; only boolean search matters). -/
def pyregexps (c : Char) : Option RE :=
  match c with
  | 'B' => some (wordAlt pymonths)                                  -- january|…|december
  | 'b' => some (wordAlt (pymonths.map (fun m => m.take 3)))        -- jan|…|dec
  | 'm' => some (.seq reDigit (.opt reDigit))                       -- \d\d?
  | 'd' => some (.seq reDigit (.opt reDigit))                       -- \d\d?
  | 'Y' => some (.seq reDigit (.seq reDigit (.seq reDigit reDigit))) -- \d\d\d\d
  | 'y' => some (.seq reDigit reDigit)                              -- \d\d
  | 'I' => some (.alt (.seq (.opt (.lit '0')) (.cls '1' '9'))
                      (.seq (.lit '1') (.cls '0' '2')))             -- 0?[1-9]|1[012]
  | 'H' => some (.alt (.seq (.opt (.cls '0' '1')) (.cls '0' '9'))
                      (.seq (.lit '2') (.cls '0' '3')))             -- [01]?[0-9]|2[0-3]
  | 'M' => some (.seq (.cls '0' '5') reDigit)                       -- [0-5]\d
  | 'S' => some (.seq (.cls '0' '5') reDigit)                       -- [0-5]\d
  | 'f' => some .plusDigit                                          -- \d+
  | 'p' => some (wordAlt ["am", "pm"])                              -- am|pm
  | _ => none

/-- `dates._date_formats`. -/
def pydate_formats : List String :=
  ["B d, Y", "b d, Y", "B d Y", "b d Y", "B d", "b d",
   "Y/m/d", "Y-m-d", "m/d/Y", "m-d-Y", "m/d/y", "m-d-y", "y/m/d", "y-m-d"]

/-- `dates._time_formats`. -/
def pytime_formats : List String :=
  ["I:M:S.f p", "H:M:S.f", "I:M:S p", "H:M:S", "I:M p", "H:M"]

/-- `dates.format_regexp`: translate a simplified format into a
`strptime`-style format string and a compiled pattern.  A character that is
not a directive goes into the pattern verbatim; since the pattern is handed
to `re.compile` unescaped, a literal `.` in a simplified format becomes the
any-character pattern. -/
def format_regexp (simple_format : String) : String × RE :=
  simple_format.data.foldl
    (fun acc char =>
      match pyregexps char with
      | some frag => ((acc.1.push '%').push char, .seq acc.2 frag)
      | none => (acc.1.push char, .seq acc.2 (if char = '.' then .any else .lit char)))
    ("", .eps)

/-- `dates.compiled_format_regexps`: the three accumulation loops of the
source, building date+time combinations (date varying slowest), then
date-only formats, then time-only formats, and compiling each. -/
def compiled_format_regexps (date_formats time_formats : List String) :
    List (String × RE) :=
  let dtf1 := date_formats.foldl
    (fun acc df => time_formats.foldl
      (fun acc2 tf => acc2 ++ [df ++ " " ++ tf]) acc) []
  let dtf2 := date_formats.foldl (fun acc df => acc ++ [df]) dtf1
  let dtf3 := time_formats.foldl (fun acc tf => acc ++ [tf]) dtf2
  dtf3.foldl (fun acc f => acc ++ [format_regexp f]) []

/-- Errors signalled by the engine; every constructor is a Python
`CannotParse` (the constructors record which message the source builds). -/
inductive PErr
  /-- `strptime`: "time data ... does not match format ..." -/
  | noMatch
  /-- `strptime`: "unconverted data remains: ..." -/
  | unconverted (rest : String)
  /-- `datetime` constructor rejects a field (e.g. day out of range for month) -/
  | badValue
  /-- `guess_format`: "Could not guess date/time format in: ..." -/
  | formatUnknown
  /-- `guess_file_date_format`: "No date/time strings found in ..." -/
  | fileFormatUnknown
deriving Repr, DecidableEq

/-- `dates.guess_format`: first candidate whose compiled pattern searches
successfully anywhere in the string, in list order. -/
def guess_format (string : String) : Except PErr String :=
  match (compiled_format_regexps pydate_formats pytime_formats).find?
      (fun fr => fr.2.search string) with
  | some fr => .ok fr.1
  | none => .error .formatUnknown

/-- `dates.guess_file_date_format`: the file is its list of lines; lines
whose guess fails are skipped; the first successful guess is returned. -/
def guess_file_date_format : List String → Except PErr String
  | [] => .error .fileFormatUnknown
  | line :: rest =>
    match guess_format line with
    | .ok format => .ok format
    | .error _ => guess_file_date_format rest

/-! ## `datetime.strptime` (CPython 2.7 `_strptime`)

`strptime` compiles the format into a regular expression (directive
patterns below transcribe `_strptime.TimeRE`), matches it against the
start of the string in backtracking order, then post-processes the
captured fields.  Here the format is interpreted by a recursive-descent
parser whose candidate list enumerates the regex engine's matches in the
same preference order; only the first (preferred) match is consumed. -/

/-- Numeric value of a decimal digit character. -/
def numv (c : Char) : Int := (c.toNat : Int) - 48

/-- `%Y` — `\d\d\d\d`. -/
def matchY : List Char → List (Int × List Char)
  | a :: b :: c :: d :: rest =>
    if a.isDigit && b.isDigit && c.isDigit && d.isDigit then
      [(((numv a * 10 + numv b) * 10 + numv c) * 10 + numv d, rest)]
    else []
  | _ => []

/-- `%y` — `\d\d`. -/
def matchy : List Char → List (Int × List Char)
  | a :: b :: rest =>
    if a.isDigit && b.isDigit then [(numv a * 10 + numv b, rest)] else []
  | _ => []

/-- `%m` — `1[0-2]|0[1-9]|[1-9]`. -/
def matchm : List Char → List (Int × List Char)
  | a :: b :: rest =>
    (if a = '1' && '0' ≤ b && b ≤ '2' then [(10 + numv b, rest)] else []) ++
    (if a = '0' && '1' ≤ b && b ≤ '9' then [(numv b, rest)] else []) ++
    (if '1' ≤ a && a ≤ '9' then [(numv a, b :: rest)] else [])
  | [a] => if '1' ≤ a && a ≤ '9' then [(numv a, [])] else []
  | [] => []

/-- `%d` — `3[01]|[12]\d|0[1-9]|[1-9]`. -/
def matchd : List Char → List (Int × List Char)
  | a :: b :: rest =>
    (if a = '3' && ('0' ≤ b && b ≤ '1') then [(30 + numv b, rest)] else []) ++
    (if ('1' ≤ a && a ≤ '2') && b.isDigit then [(numv a * 10 + numv b, rest)] else []) ++
    (if a = '0' && '1' ≤ b && b ≤ '9' then [(numv b, rest)] else []) ++
    (if '1' ≤ a && a ≤ '9' then [(numv a, b :: rest)] else [])
  | [a] => if '1' ≤ a && a ≤ '9' then [(numv a, [])] else []
  | [] => []

/-- `%H` — `2[0-3]|[0-1]\d|\d`. -/
def matchH : List Char → List (Int × List Char)
  | a :: b :: rest =>
    (if a = '2' && ('0' ≤ b && b ≤ '3') then [(20 + numv b, rest)] else []) ++
    (if ('0' ≤ a && a ≤ '1') && b.isDigit then [(numv a * 10 + numv b, rest)] else []) ++
    (if a.isDigit then [(numv a, b :: rest)] else [])
  | [a] => if a.isDigit then [(numv a, [])] else []
  | [] => []

/-- `%I` — `1[0-2]|0[1-9]|[1-9]`. -/
def matchI : List Char → List (Int × List Char)
  | a :: b :: rest =>
    (if a = '1' && ('0' ≤ b && b ≤ '2') then [(10 + numv b, rest)] else []) ++
    (if a = '0' && '1' ≤ b && b ≤ '9' then [(numv b, rest)] else []) ++
    (if '1' ≤ a && a ≤ '9' then [(numv a, b :: rest)] else [])
  | [a] => if '1' ≤ a && a ≤ '9' then [(numv a, [])] else []
  | [] => []

/-- `%M` — `[0-5]\d|\d`. -/
def matchMin : List Char → List (Int × List Char)
  | a :: b :: rest =>
    (if ('0' ≤ a && a ≤ '5') && b.isDigit then [(numv a * 10 + numv b, rest)] else []) ++
    (if a.isDigit then [(numv a, b :: rest)] else [])
  | [a] => if a.isDigit then [(numv a, [])] else []
  | [] => []

/-- `%S` — `6[0-1]|[0-5]\d|\d`. -/
def matchS : List Char → List (Int × List Char)
  | a :: b :: rest =>
    (if a = '6' && ('0' ≤ b && b ≤ '1') then [(60 + numv b, rest)] else []) ++
    (if ('0' ≤ a && a ≤ '5') && b.isDigit then [(numv a * 10 + numv b, rest)] else []) ++
    (if a.isDigit then [(numv a, b :: rest)] else [])
  | [a] => if a.isDigit then [(numv a, [])] else []
  | [] => []

/-- Microseconds from the digit string captured by `%f`
(`int(f + '0' * (6 - len(f)))`). -/
def padMicro (ds : List Char) : Int :=
  (ds.foldl (fun a c => a * 10 + numv c) 0) * ((10 : Int) ^ (6 - ds.length))

/-- `%f` — `[0-9]{1,6}`, greedy: longest capture first. -/
def matchf (cs : List Char) : List (Int × List Char) :=
  let ds := (cs.takeWhile Char.isDigit).take 6
  (List.range ds.length).map
    (fun i => (padMicro (ds.take (ds.length - i)), cs.drop (ds.length - i)))

/-- `%p` — `am|pm` (case-insensitive); the value is "is pm". -/
def matchp (cs : List Char) : List (Bool × List Char) :=
  (match dropPrefixCI ['a', 'm'] cs with
   | some rest => [(false, rest)]
   | none => []) ++
  (match dropPrefixCI ['p', 'm'] cs with
   | some rest => [(true, rest)]
   | none => [])

/-- `%B`/`%b` — alternation of month names; the value is the month number. -/
def matchWords : List String → Int → List Char → List (Int × List Char)
  | [], _, _ => []
  | w :: ws, i, cs =>
    (match dropPrefixCI w.data cs with
     | some rest => [(i, rest)]
     | none => []) ++ matchWords ws (i + 1) cs

/-- Remainders after consuming one or more whitespace characters
(`\s+`, the translation of literal whitespace in a `strptime` format),
greedy: longest consumption first. -/
def wsSplits : List Char → List (List Char)
  | [] => []
  | c :: cs => if pyIsSpace c then wsSplits cs ++ [cs] else []

/-- The captured fields of a `strptime` match. -/
structure Fields where
  fY : Option Int
  fy : Option Int
  fmon : Option Int
  fd : Option Int
  fH : Option Int
  fI : Option Int
  fMin : Option Int
  fS : Option Int
  fmicro : Option Int
  fpm : Option Bool
deriving Repr, DecidableEq

/-- No fields captured yet. -/
def Fields.empty : Fields :=
  ⟨none, none, none, none, none, none, none, none, none, none⟩

/-- A token of the compiled format: `_strptime.TimeRE.pattern` escapes the
format, replaces each whitespace run by `\\s+` and substitutes each `%`
directive by its named-group pattern. -/
inductive FTok
  /-- `%c` (with `%%` as `dir '%'`, a literal percent) -/
  | dir (c : Char)
  /-- `\\s+`, from a whitespace run -/
  | wsp
  /-- an escaped literal character -/
  | litc (c : Char)
deriving Repr, DecidableEq

/-- Compile a format string to its token list, merging consecutive
whitespace into one `\\s+` token.  A `%` with nothing after it cannot
match (Python errors out of `strptime` there too). -/
def compileFormat : List Char → List FTok
  | [] => []
  | '%' :: rest =>
    match rest with
    | [] => [.dir '\x00']
    | c :: rest2 => .dir c :: compileFormat rest2
  | c :: rest =>
    if pyIsSpace c then
      match compileFormat rest with
      | .wsp :: ts => .wsp :: ts
      | ts => .wsp :: ts
    else .litc c :: compileFormat rest

/-- All matches of the compiled format against a prefix of the input, in
the regex engine's preference order, each with its captured fields and the
unconsumed remainder. -/
def stpMatch : List FTok → List Char → Fields → List (Fields × List Char)
  | [], input, fl => [(fl, input)]
  | .wsp :: rest, input, fl =>
    (wsSplits input).flatMap (fun input2 => stpMatch rest input2 fl)
  | .litc c :: rest, input, fl =>
    match input with
    | i :: input2 => if ciEq c i then stpMatch rest input2 fl else []
    | [] => []
  | .dir c :: rest, input, fl =>
    if c = '%' then
      match input with
      | i :: input2 => if i = '%' then stpMatch rest input2 fl else []
      | [] => []
    else if c = 'Y' then
      (matchY input).flatMap (fun vr => stpMatch rest vr.2 { fl with fY := some vr.1 })
    else if c = 'y' then
      (matchy input).flatMap (fun vr => stpMatch rest vr.2 { fl with fy := some vr.1 })
    else if c = 'm' then
      (matchm input).flatMap (fun vr => stpMatch rest vr.2 { fl with fmon := some vr.1 })
    else if c = 'B' then
      (matchWords pymonths 1 input).flatMap
        (fun vr => stpMatch rest vr.2 { fl with fmon := some vr.1 })
    else if c = 'b' then
      (matchWords (pymonths.map (fun mn => mn.take 3)) 1 input).flatMap
        (fun vr => stpMatch rest vr.2 { fl with fmon := some vr.1 })
    else if c = 'd' then
      (matchd input).flatMap (fun vr => stpMatch rest vr.2 { fl with fd := some vr.1 })
    else if c = 'H' then
      (matchH input).flatMap (fun vr => stpMatch rest vr.2 { fl with fH := some vr.1 })
    else if c = 'I' then
      (matchI input).flatMap (fun vr => stpMatch rest vr.2 { fl with fI := some vr.1 })
    else if c = 'M' then
      (matchMin input).flatMap (fun vr => stpMatch rest vr.2 { fl with fMin := some vr.1 })
    else if c = 'S' then
      (matchS input).flatMap (fun vr => stpMatch rest vr.2 { fl with fS := some vr.1 })
    else if c = 'f' then
      (matchf input).flatMap (fun vr => stpMatch rest vr.2 { fl with fmicro := some vr.1 })
    else if c = 'p' then
      (matchp input).flatMap (fun vr => stpMatch rest vr.2 { fl with fpm := some vr.1 })
    else []

/-- A naive `datetime.datetime` value. -/
structure DateTime where
  year : Int
  month : Int
  day : Int
  hour : Int
  minute : Int
  second : Int
  micro : Int
deriving Repr, DecidableEq

/-- Gregorian leap-year rule (`calendar.isleap`). -/
def isLeap (y : Int) : Bool := (y % 4 == 0 && y % 100 != 0) || y % 400 == 0

/-- Length of a month. -/
def monthLen (y m : Int) : Int :=
  if m = 2 then (if isLeap y then 29 else 28)
  else if m = 4 ∨ m = 6 ∨ m = 9 ∨ m = 11 then 30 else 31

/-- The `datetime` constructor's range validation. -/
def pyDateTimeNew (t : DateTime) : Except PErr DateTime :=
  if 1 ≤ t.year ∧ t.year ≤ 9999 ∧ 1 ≤ t.month ∧ t.month ≤ 12 ∧
      1 ≤ t.day ∧ t.day ≤ monthLen t.year t.month ∧
      0 ≤ t.hour ∧ t.hour ≤ 23 ∧ 0 ≤ t.minute ∧ t.minute ≤ 59 ∧
      0 ≤ t.second ∧ t.second ≤ 59 ∧ 0 ≤ t.micro ∧ t.micro ≤ 999999 then
    .ok t
  else .error .badValue

/-- `_strptime`'s field post-processing followed by the `datetime`
constructor's range validation. -/
def buildDT (fl : Fields) : Except PErr DateTime :=
  let year : Int := match fl.fY with
    | some v => v
    | none => match fl.fy with
      | some v => if v ≤ 68 then v + 2000 else v + 1900
      | none => 1900
  let month := fl.fmon.getD 1
  let day := fl.fd.getD 1
  let hour : Int := match fl.fI with
    | some v => (match fl.fpm with
      | some true => if v = 12 then v else v + 12
      | _ => if v = 12 then 0 else v)
    | none => fl.fH.getD 0
  let minute := fl.fMin.getD 0
  let second := fl.fS.getD 0
  let micro := fl.fmicro.getD 0
  pyDateTimeNew ⟨year, month, day, hour, minute, second, micro⟩

/-- `datetime.strptime`: match the compiled format at the start of the
string (first match in preference order); anything unconsumed is the
"unconverted data remains" error; otherwise build and validate the value. -/
def strptime (data_string format : String) : Except PErr DateTime :=
  match stpMatch (compileFormat format.data) data_string.data Fields.empty with
  | [] => .error .noMatch
  | (fl, rest) :: _ =>
    if rest.isEmpty then buildDT fl else .error (.unconverted (String.mk rest))

/-- `dates.parse`: count the spaces in the format (N), keep only the first
N+1 whitespace-separated tokens of the string joined by single spaces, and
run one `strptime` attempt; every `ValueError` becomes `CannotParse`. -/
def parse (string format : String) : Except PErr DateTime :=
  let spaces := countChar format ' ' + 1
  let string2 := joinSpace ((pySplit string).take spaces)
  strptime string2 format

/-! ## Epoch conversions (`time.mktime`, `datetime.fromtimestamp`)

Modelled as naive local time with zero UTC offset on the proleptic
Gregorian calendar: `mktime` maps a calendar date and time of day to
seconds since 1970-01-01 00:00:00, and `fromtimestamp` is its inverse.
The year-level conversion steps one year at a time from the 1970 anchor,
which keeps the round-trip provable by induction. -/

/-- Days in a year. -/
def daysInYearN (y : Int) : Nat := if isLeap y then 366 else 365

/-- The month lengths of year `y`, January first. -/
def monthLens (y : Int) : List Nat :=
  [31, if isLeap y then 29 else 28, 31, 30, 31, 30, 31, 31, 30, 31, 30, 31]

/-- Days from 1970-01-01 to Jan 1 of year `1970 + k`. -/
def upSum : Nat → Nat
  | 0 => 0
  | k + 1 => upSum k + daysInYearN (1970 + k)

/-- Days from Jan 1 of year `1970 - k` to 1970-01-01. -/
def downSum : Nat → Nat
  | 0 => 0
  | k + 1 => downSum k + daysInYearN (1969 - (k : Int))

/-- Days from the epoch to Jan 1 of year `y` (negative before 1970). -/
def dby (y : Int) : Int :=
  if 1970 ≤ y then (upSum (y - 1970).toNat : Int) else -(downSum (1970 - y).toNat : Int)

/-- Find the year containing day `z ≥ 0` (days since the epoch), scanning
upward one year per step; the explicit step bound (each step consumes at
least 365 days) keeps the recursion structural. -/
def goUpF : Nat → Int → Nat → Int × Nat
  | 0, y, z => (y, z)
  | fuel + 1, y, z =>
    if z < daysInYearN y then (y, z) else goUpF fuel (y + 1) (z - daysInYearN y)

/-- `goUpF` with enough steps for day `z`. -/
def goUp (y : Int) (z : Nat) : Int × Nat := goUpF (z + 1) y z

/-- Find the year containing day `-n` (`n ≥ 1`), scanning downward one
year per step. -/
def goDownF : Nat → Int → Nat → Int × Nat
  | 0, y, n => (y, n)
  | fuel + 1, y, n =>
    let L := daysInYearN (y - 1)
    if n ≤ L then (y - 1, L - n) else goDownF fuel (y - 1) (n - L)

/-- `goDownF` with enough steps for day `-n`. -/
def goDown (y : Int) (n : Nat) : Int × Nat := goDownF n y n

/-- Year and day-of-year of a day count since the epoch. -/
def yearAndDoy (z : Int) : Int × Nat :=
  if 0 ≤ z then goUp 1970 z.toNat else goDown 1970 (-z).toNat

/-- Month (1-based, starting at `i`) and day of month for a day offset
into the given month-length list. -/
def findMonth : List Nat → Nat → Nat → Nat × Nat
  | [], i, d => (i, d + 1)
  | len :: rest, i, d => if d < len then (i, d + 1) else findMonth rest (i + 1) (d - len)

/-- `datetime.fromtimestamp` (zero offset): split seconds into days and
seconds of day, then the day count into year, month and day. -/
def fromtimestamp (s : Int) : DateTime :=
  let days := Int.fdiv s 86400
  let sod := (s - 86400 * days).toNat
  let yd := yearAndDoy days
  let md := findMonth (monthLens yd.1) 1 yd.2
  ⟨yd.1, md.1, md.2, (sod / 3600 : Nat), (sod % 3600 / 60 : Nat), (sod % 60 : Nat), 0⟩

/-- Days since the epoch of a calendar date. -/
def daysFromCivil (y m d : Int) : Int :=
  dby y + (((monthLens y).take (m - 1).toNat).sum : Int) + d - 1

/-- `int(time.mktime(t.timetuple()))` (zero offset): seconds since the
epoch; sub-second precision is dropped by `timetuple`. -/
def mktime (t : DateTime) : Int :=
  daysFromCivil t.year t.month t.day * 86400 + t.hour * 3600 + t.minute * 60 + t.second

/-- The resolution-truncation step of `dates.date_chop` (Python 2 `/` is
floor division on ints). -/
def chopDT (t : DateTime) (resolution : Int) : DateTime :=
  fromtimestamp (Int.fdiv (mktime t) resolution * resolution)

/-- `dates.date_chop`: parse, then truncate to the resolution. -/
def date_chop (line dateformat : String) (resolution : Int) : Except PErr DateTime :=
  (parse line dateformat).map (fun timestamp => chopDT timestamp resolution)

/-! ## `csvsee.utils.grep_files`

A file is modelled as its list of lines (without trailing newlines; the
source strips each line before use).  Match expressions are compiled with
`re.compile(expr)`; the expressions exercised here are literal text, so
compilation maps each character to a case-sensitive literal (a metacharacter-
free pattern).  The progress-bar and printing statements are I/O only and
have no effect on the returned value. -/

/-- `re.compile(expr)` for a metacharacter-free expression: the
concatenation of its characters, case-sensitively. -/
def compileLit (expr : String) : RE :=
  expr.data.foldl (fun acc c => .seq acc (.chr c)) .eps

/-- The per-bucket counts `{match: count}`, keyed by the original match
expression (`expr.pattern`). -/
abbrev Row := List (String × Nat)

/-- The accumulated `rows` dictionary as an association list in insertion
order (the final result is sorted by key, so dictionary iteration order is
irrelevant). -/
abbrev Rows := List (DateTime × Row)

/-- `if timestamp not in rows: rows[timestamp] = dict(row_temp)`. -/
def ensureRow (rows : Rows) (ts : DateTime) (temp : Row) : Rows :=
  if rows.any (fun e => e.1 = ts) then rows else rows ++ [(ts, temp)]

/-- `counts[pattern] += 1` on one bucket's counts. -/
def bumpKey : Row → String → Row
  | [], _ => []
  | (k, v) :: r, s => if k = s then (k, v + 1) :: r else (k, v) :: bumpKey r s

/-- `rows[timestamp][pattern] += 1`. -/
def bumpRow : Rows → DateTime → String → Rows
  | [], _, _ => []
  | (t, row) :: r, ts, s =>
    if t = ts then (t, bumpKey row s) :: r else (t, row) :: bumpRow r ts s

/-- The body of `grep_files`' inner loop for one line: strip it, skip it if
empty, try `date_chop` (keeping the current timestamp on `CannotParse`),
create the bucket if new, and count each matching expression. -/
def grep_line (dateformat : String) (resolution : Int) (matchExprs : List String)
    (st : DateTime × Rows) (rawline : String) : DateTime × Rows :=
  let line := pyStrip rawline
  if line = "" then st
  else
    let timestamp := match date_chop line dateformat resolution with
      | .ok t => t
      | .error _ => st.1
    let rows := ensureRow st.2 timestamp (matchExprs.map (fun m => (m, 0)))
    let rows := matchExprs.foldl
      (fun r expr => if (compileLit expr).search line then bumpRow r timestamp expr else r)
      rows
    (timestamp, rows)

/-- Python `datetime` comparison: lexicographic on the field tuple. -/
def dtList (t : DateTime) : List Int :=
  [t.year, t.month, t.day, t.hour, t.minute, t.second, t.micro]

/-- Lexicographic order on integer lists (Python tuple comparison). -/
def lexLe : List Int → List Int → Bool
  | [], _ => true
  | _ :: _, [] => false
  | a :: as2, b :: bs =>
    if a < b then true else if b < a then false else lexLe as2 bs

/-- `datetime ≤ datetime` in Python. -/
def dtLe (a b : DateTime) : Bool := lexLe (dtList a) (dtList b)

/-- Insert one entry into a key-sorted list (the building block of
`sorted(rows.iteritems())`; keys are distinct, so tie order is moot). -/
def insertRow (x : DateTime × Row) : Rows → Rows
  | [] => [x]
  | y :: ys => if dtLe x.1 y.1 then x :: y :: ys else y :: insertRow x ys

/-- `sorted(rows.iteritems())`: the accumulated buckets sorted by key. -/
def sortRows (rs : Rows) : Rows := rs.foldr insertRow []

/-- The per-file loop of `grep_files`, threading the format (`dateformat`
is overwritten by a guess, so it carries across files) and the rows;
the "current timestamp" restarts at the `datetime(1970, 1, 1)` sentinel
for each file. -/
def grep_go (matchExprs : List String) (resolution : Int) :
    String → Rows → List (List String) → Except PErr Rows
  | _, rows, [] => .ok (sortRows rows)
  | dateformat, rows, file :: rest => do
    let dateformat ← if dateformat = "" ∨ dateformat = "guess"
      then guess_file_date_format file else .ok dateformat
    let st := file.foldl (grep_line dateformat resolution matchExprs)
      (⟨1970, 1, 1, 0, 0, 0, 0⟩, rows)
    grep_go matchExprs resolution dateformat st.2 rest

/-- `utils.grep_files`: scan the files and return the sorted
`(timestamp, counts)` list. -/
def grep_files (filenames : List (List String)) (matchExprs : List String)
    (dateformat : String) (resolution : Int) : Except PErr Rows :=
  grep_go matchExprs resolution dateformat [] filenames

/-! ## Definitions used only by the statements below -/

/-- The `parse` described by the specification (§4.1), for comparison with
the source's `parse`: one strict parse of the whole text; if and only if it
fails because of unconverted trailing data, retract exactly the reported
number of trailing characters and retry once; any other failure, or a
failure of the single retry, propagates. -/
def parse_spec (string format : String) : Except PErr DateTime :=
  match strptime string format with
  | .error (.unconverted rest) =>
    strptime (String.mk (string.data.take (string.data.length - rest.data.length))) format
  | r => r

/-- Dictionary lookup in the accumulated rows. -/
def lookupRow (rows : Rows) (t : DateTime) : Option Row :=
  (rows.find? (fun e => e.1 = t)).map (fun e => e.2)

/-- The field ranges every constructible Python `datetime` satisfies. -/
def ValidDT (t : DateTime) : Prop :=
  1 ≤ t.month ∧ t.month ≤ 12 ∧ 1 ≤ t.day ∧ t.day ≤ monthLen t.year t.month ∧
  0 ≤ t.hour ∧ t.hour ≤ 23 ∧ 0 ≤ t.minute ∧ t.minute ≤ 59 ∧
  0 ≤ t.second ∧ t.second ≤ 59 ∧ 0 ≤ t.micro


deriving instance DecidableEq for Except

set_option maxRecDepth 10000

/-! ## Accumulation-loop lemmas (for C9) -/

theorem foldl_append_blocks {α β : Type} (h : α → List β) :
    ∀ (l : List α) (init : List β),
      l.foldl (fun acc x => acc ++ h x) init = init ++ l.flatMap h := by
  intro l
  induction l with
  | nil => intro init; simp
  | cons a as ih =>
    intro init
    simp only [List.foldl_cons, List.flatMap_cons]
    rw [ih, List.append_assoc]

theorem foldl_append_one {α β : Type} (g : α → β) :
    ∀ (l : List α) (init : List β),
      l.foldl (fun acc x => acc ++ [g x]) init = init ++ l.map g := by
  intro l init
  rw [foldl_append_blocks (fun x => [g x])]
  congr 1
  induction l with
  | nil => rfl
  | cons a as ih => simp [ih]

theorem foldl_ext2 {α β : Type} (f g : β → α → β) :
    ∀ (l : List α) (init : β), (∀ acc x, f acc x = g acc x) →
      l.foldl f init = l.foldl g init := by
  intro l
  induction l with
  | nil => intros; rfl
  | cons a as ih =>
    intro init h
    simp only [List.foldl_cons]
    rw [h, ih _ h]

/-- C9: the CandidateFormatList is exactly the Cartesian product of the
date-only templates with the time-only templates (the date part varying
slowest), followed by the date-only templates alone, followed by the
time-only templates alone, each turned into a (format, pattern) pair by
`format_regexp`; the construction is a pure function of the two template
lists, so rebuilding it always yields this same list. -/
theorem compiled_format_regexps_structure (dfs tfs : List String) :
    compiled_format_regexps dfs tfs =
      ((dfs.flatMap (fun df => tfs.map (fun tf => df ++ " " ++ tf))) ++ dfs ++ tfs).map
        format_regexp := by
  simp only [compiled_format_regexps]
  rw [foldl_ext2 _ (fun acc df => acc ++ tfs.map (fun tf => df ++ " " ++ tf)) dfs []
      (fun acc x => foldl_append_one _ tfs acc)]
  rw [foldl_append_blocks (fun df => tfs.map (fun tf => df ++ " " ++ tf)) dfs []]
  rw [foldl_append_blocks (fun df => [df]) dfs]
  rw [foldl_append_blocks (fun tf => [tf]) tfs]
  rw [foldl_append_one format_regexp]
  simp [List.append_assoc]

/-- C5: appending whitespace-separated trailing garbage to a well-formed
`year4/month/day` string does not change the parse result: both strings
parse to midnight 2010-08-28. -/
theorem parse_trailing_garbage_equal :
    parse "2010/08/28 extra stuff" "%Y/%m/%d" = parse "2010/08/28" "%Y/%m/%d" ∧
    parse "2010/08/28 extra stuff" "%Y/%m/%d" = .ok ⟨2010, 8, 28, 0, 0, 0, 0⟩ :=
  ⟨by decide, by decide⟩

/-! ## Search-anywhere and first-match lemmas (for C1, C8) -/

theorem mem_digitSuffixes_append (suf : List Char) :
    ∀ (cs r : List Char), r ∈ digitSuffixes cs → r ++ suf ∈ digitSuffixes (cs ++ suf) := by
  intro cs
  induction cs with
  | nil => intro r h; simp [digitSuffixes] at h
  | cons c cs2 ih =>
    intro r h
    simp only [digitSuffixes, List.cons_append] at h ⊢
    by_cases hd : c.isDigit
    · simp only [hd, if_true, List.mem_append, List.mem_singleton] at h ⊢
      rcases h with h | h
      · exact Or.inl (ih r h)
      · subst h; exact Or.inr rfl
    · simp [hd] at h

theorem dropPrefixCI_append (suf : List Char) :
    ∀ (p cs r : List Char), dropPrefixCI p cs = some r →
      dropPrefixCI p (cs ++ suf) = some (r ++ suf) := by
  intro p
  induction p with
  | nil =>
    intro cs r h
    simp only [dropPrefixCI, Option.some_inj] at h ⊢
    subst h; rfl
  | cons x xs ih =>
    intro cs r h
    cases cs with
    | nil => simp [dropPrefixCI] at h
    | cons c cs2 =>
      simp only [dropPrefixCI, List.cons_append] at h ⊢
      by_cases hc : ciEq x c
      · simp only [hc, if_true] at h ⊢
        exact ih cs2 r h
      · simp [hc] at h

theorem matchFrom_append (suf : List Char) :
    ∀ (re : RE) (cs r : List Char), r ∈ re.matchFrom cs →
      r ++ suf ∈ re.matchFrom (cs ++ suf) := by
  intro re
  induction re with
  | eps =>
    intro cs r h
    simp only [RE.matchFrom, List.mem_singleton] at h ⊢
    subst h; rfl
  | any =>
    intro cs r h
    cases cs with
    | nil => simp [RE.matchFrom] at h
    | cons c cs2 =>
      simp only [RE.matchFrom, List.mem_singleton, List.cons_append] at h ⊢
      subst h; rfl
  | lit c =>
    intro cs r h
    cases cs with
    | nil => simp [RE.matchFrom] at h
    | cons x cs2 =>
      simp only [RE.matchFrom, List.cons_append] at h ⊢
      split at h
      next hc =>
        simp only [List.mem_singleton] at h
        subst h
        simp [hc]
      next hc => simp at h
  | chr c =>
    intro cs r h
    cases cs with
    | nil => simp [RE.matchFrom] at h
    | cons x cs2 =>
      simp only [RE.matchFrom, List.cons_append] at h ⊢
      split at h
      next hc =>
        simp only [List.mem_singleton] at h
        subst h
        simp [hc]
      next hc => simp at h
  | cls lo hi =>
    intro cs r h
    cases cs with
    | nil => simp [RE.matchFrom] at h
    | cons x cs2 =>
      simp only [RE.matchFrom, List.cons_append] at h ⊢
      split at h
      next hc =>
        simp only [List.mem_singleton] at h
        subst h
        simp [hc]
      next hc => simp at h
  | seq a b iha ihb =>
    intro cs r h
    simp only [RE.matchFrom, List.mem_flatMap] at h ⊢
    rcases h with ⟨m, hm, hr⟩
    exact ⟨m ++ suf, iha cs m hm, ihb m r hr⟩
  | alt a b iha ihb =>
    intro cs r h
    simp only [RE.matchFrom, List.mem_append] at h ⊢
    rcases h with h | h
    · exact Or.inl (iha cs r h)
    · exact Or.inr (ihb cs r h)
  | opt a iha =>
    intro cs r h
    simp only [RE.matchFrom, List.mem_append, List.mem_singleton] at h ⊢
    rcases h with h | h
    · exact Or.inl (iha cs r h)
    · subst h; exact Or.inr rfl
  | plusDigit =>
    intro cs r h
    simp only [RE.matchFrom] at h ⊢
    exact mem_digitSuffixes_append suf cs r h
  | word s =>
    intro cs r h
    simp only [RE.matchFrom, Option.mem_toList, Option.mem_def] at h ⊢
    exact dropPrefixCI_append suf s.data cs r h

theorem matchedAt_append (re : RE) (cs suf : List Char) (h : re.matchedAt cs = true) :
    re.matchedAt (cs ++ suf) = true := by
  unfold RE.matchedAt at h ⊢
  cases hm : re.matchFrom cs with
  | nil => rw [hm] at h; simp at h
  | cons r rs =>
    have hmem : r ++ suf ∈ re.matchFrom (cs ++ suf) :=
      matchFrom_append suf re cs r (by rw [hm]; exact List.mem_cons_self r rs)
    cases hm2 : re.matchFrom (cs ++ suf) with
    | nil => rw [hm2] at hmem; simp at hmem
    | cons a as => simp

theorem searchL_of_matchedAt (re : RE) (s : List Char) (h : re.matchedAt s = true) :
    re.searchL s = true := by
  cases s with
  | nil => exact h
  | cons c cs => simp [RE.searchL, h]

theorem searchL_append_right (re : RE) :
    ∀ (s suf : List Char), re.searchL s = true → re.searchL (s ++ suf) = true := by
  intro s
  induction s with
  | nil =>
    intro suf h
    exact searchL_of_matchedAt re suf (matchedAt_append re [] suf h)
  | cons c cs ih =>
    intro suf h
    simp only [RE.searchL, Bool.or_eq_true] at h
    rcases h with h | h
    · simp only [List.cons_append, RE.searchL, Bool.or_eq_true]
      exact Or.inl (matchedAt_append re (c :: cs) suf h)
    · simp only [List.cons_append, RE.searchL, Bool.or_eq_true]
      exact Or.inr (ih suf h)

theorem searchL_append_left (re : RE) :
    ∀ (pre s : List Char), re.searchL s = true → re.searchL (pre ++ s) = true := by
  intro pre
  induction pre with
  | nil => intro s h; exact h
  | cons c cs ih =>
    intro s h
    simp only [List.cons_append, RE.searchL, Bool.or_eq_true]
    exact Or.inr (ih s h)

theorem find?_of_first {α : Type} (p : α → Bool) :
    ∀ (l : List α) (i : Nat) (x : α), l[i]? = some x → p x = true →
      (∀ (k : Nat) (y : α), k < i → l[k]? = some y → p y = false) →
      l.find? p = some x := by
  intro l
  induction l with
  | nil => intro i x h; simp at h
  | cons a as ih =>
    intro i x h hp hk
    cases i with
    | zero =>
      simp only [List.getElem?_cons_zero, Option.some_inj] at h
      subst h
      simp [List.find?, hp]
    | succ i2 =>
      have ha : p a = false := hk 0 a (Nat.succ_pos i2) (by simp)
      rw [List.find?, ha]
      exact ih i2 x (by simpa using h) hp
        (fun k y hlt hg => hk (k + 1) y (by omega) (by simpa using hg))

/-- C1: `guess_format` tests each candidate of the fixed list, in list
order, with a search that may match anywhere in the string (so leading and
trailing text is tolerated, first conjunct), and returns the format
template of the first candidate whose pattern matches: if candidate `i`
matches, a later candidate `j` also matches, and no candidate before `i`
matches, the result is candidate `i`'s template.  `guess_format` is a pure
function of its argument, so repeated calls return the same template. -/
theorem guess_format_priority :
    (∀ (re : RE) (pre s suf : List Char),
      re.searchL s = true → re.searchL (pre ++ s ++ suf) = true) ∧
    (∀ (s : String) (i j : Nat) (fi fj : String × RE),
      i < j →
      (compiled_format_regexps pydate_formats pytime_formats)[i]? = some fi →
      (compiled_format_regexps pydate_formats pytime_formats)[j]? = some fj →
      fi.2.search s = true → fj.2.search s = true →
      (∀ (k : Nat) (fk : String × RE), k < i →
        (compiled_format_regexps pydate_formats pytime_formats)[k]? = some fk →
        fk.2.search s = false) →
      guess_format s = .ok fi.1) := by
  constructor
  · intro re pre s suf h
    rw [List.append_assoc]
    exact searchL_append_left re pre (s ++ suf) (searchL_append_right re s suf h)
  · intro s i j fi fj hij hi hj hsi hsj hfirst
    unfold guess_format
    rw [find?_of_first (fun fr => fr.2.search s)
      (compiled_format_regexps pydate_formats pytime_formats) i fi hi hsi
      (fun k y hlt hg => hfirst k y hlt hg)]

/-- Witness for C1 at a concrete ambiguous string: it matches both the
first candidate (`B d, Y I:M:S.f p`) and the date-only candidate
`B d, Y` at index 84, and `guess_format` returns the first one. -/
theorem guess_format_priority_witness :
    guess_format "january 5, 2006 3:05:29.1 pm" = .ok (format_regexp "B d, Y I:M:S.f p").1 :=
  guess_format_priority.2 "january 5, 2006 3:05:29.1 pm" 0 84
    (format_regexp "B d, Y I:M:S.f p") (format_regexp "B d, Y")
    (by decide) (by decide) (by decide) (by decide) (by decide)
    (fun k fk hk _ => absurd hk (Nat.not_lt_zero k))

/-- `guess_format` signals only the format-unknown failure. -/
theorem guess_format_error_eq (l : String) (e : PErr)
    (h : guess_format l = .error e) : e = .formatUnknown := by
  unfold guess_format at h
  cases hf : (compiled_format_regexps pydate_formats pytime_formats).find?
      (fun fr => fr.2.search l) with
  | some fr => rw [hf] at h; cases h
  | none => rw [hf] at h; cases h; rfl

/-- C8: `guess_format` fails (with the format-unknown `CannotParse`) iff no
candidate's pattern matches, and in particular on the all-text example;
`guess_file_date_format` skips lines whose guess fails and returns the
guess of the first line with a recognizable date/time, and fails with the
file-level `CannotParse` iff every line's guess fails. -/
theorem guess_failure_iff :
    (∀ s : String, guess_format s = .error .formatUnknown ↔
      ∀ fr ∈ compiled_format_regexps pydate_formats pytime_formats,
        fr.2.search s = false) ∧
    guess_format "no date anywhere in this text" = .error .formatUnknown ∧
    (∀ (pre rest : List String) (l f : String),
      (∀ l2 ∈ pre, guess_format l2 = .error .formatUnknown) → guess_format l = .ok f →
      guess_file_date_format (pre ++ l :: rest) = .ok f) ∧
    (∀ lines : List String,
      guess_file_date_format lines = .error .fileFormatUnknown ↔
        ∀ l ∈ lines, guess_format l = .error .formatUnknown) := by
  refine ⟨?iff1, by decide, ?skip, ?iff2⟩
  case iff1 =>
    intro s
    unfold guess_format
    cases hf : (compiled_format_regexps pydate_formats pytime_formats).find?
        (fun fr => fr.2.search s) with
    | some fr =>
      simp only [reduceCtorEq, false_iff]
      intro hall
      have := List.find?_some hf
      have hmem := List.mem_of_find?_eq_some hf
      rw [hall fr hmem] at this
      cases this
    | none =>
      simp only [true_iff]
      intro fr hmem
      have := List.find?_eq_none.mp hf fr hmem
      simpa using this
  case skip =>
    intro pre
    induction pre with
    | nil =>
      intro rest l f _ hg
      simp only [List.nil_append]
      unfold guess_file_date_format
      rw [hg]
    | cons p ps ih =>
      intro rest l f hpre hg
      have hp : guess_format p = .error .formatUnknown := hpre p (List.mem_cons_self p ps)
      simp only [List.cons_append]
      unfold guess_file_date_format
      rw [hp]
      exact ih rest l f (fun l2 hl2 => hpre l2 (List.mem_cons_of_mem p hl2)) hg
  case iff2 =>
    intro lines
    induction lines with
    | nil => simp [guess_file_date_format]
    | cons l ls ih =>
      unfold guess_file_date_format
      cases hg : guess_format l with
      | ok f =>
        simp only [reduceCtorEq, false_iff]
        intro hall
        rw [hall l (List.mem_cons_self l ls)] at hg
        cases hg
      | error e =>
        have he : e = .formatUnknown := guess_format_error_eq l e hg
        subst he
        rw [ih]
        constructor
        · intro hall l2 hl2
          rcases List.mem_cons.mp hl2 with h | h
          · subst h; exact hg
          · exact hall l2 h
        · intro hall l2 hl2
          exact hall l2 (List.mem_cons_of_mem l hl2)

/-- Witness for C8: a file whose first line fails to guess and whose
second line guesses successfully yields the second line's format. -/
theorem guess_failure_iff_witness :
    guess_file_date_format ["xx", "2010/01/28 13:25:49"] = .ok "%Y/%m/%d %H:%M:%S" :=
  guess_failure_iff.2.2.1 ["xx"] [] "2010/01/28 13:25:49" "%Y/%m/%d %H:%M:%S"
    (by decide) (by decide)

/-! ## Whitespace-splitting lemmas (for C10) -/

theorem splitWSAcc_append_space :
    ∀ (a b acc : List Char),
      splitWSAcc (a ++ ' ' :: b) acc = splitWSAcc a acc ++ splitWSAcc b [] := by
  intro a
  induction a with
  | nil =>
    intro b acc
    simp only [List.nil_append, splitWSAcc]
    by_cases ha : acc = []
    · simp [ha, pyIsSpace]
    · simp [ha, pyIsSpace]
  | cons c cs ih =>
    intro b acc
    simp only [List.cons_append, splitWSAcc]
    by_cases hsp : pyIsSpace c
    · rw [if_pos hsp, if_pos hsp]
      by_cases ha : acc = []
      · simp only [ha, if_pos rfl]
        exact ih b []
      · simp only [if_neg ha, List.append_eq]
        rw [ih b []]
        rfl
    · rw [if_neg hsp, if_neg hsp]
      exact ih b (c :: acc)

theorem splitWSAcc_tokens :
    ∀ (cs acc : List Char), (∀ c ∈ acc, pyIsSpace c = false) →
      ∀ t ∈ splitWSAcc cs acc, t ≠ [] ∧ ∀ c ∈ t, pyIsSpace c = false := by
  intro cs
  induction cs with
  | nil =>
    intro acc hacc t ht
    simp only [splitWSAcc] at ht
    split at ht
    · simp at ht
    · next hne =>
      simp only [List.mem_singleton] at ht
      subst ht
      refine ⟨by simpa using hne, ?props⟩
      intro c hc
      exact hacc c (List.mem_reverse.mp hc)
  | cons c cs2 ih =>
    intro acc hacc t ht
    simp only [splitWSAcc] at ht
    by_cases hsp : pyIsSpace c
    · rw [if_pos hsp] at ht
      split at ht
      · exact ih [] (by simp) t ht
      · next hne =>
        rcases List.mem_cons.mp ht with h | h
        · subst h
          refine ⟨by simpa using hne, ?props2⟩
          intro c2 hc2
          exact hacc c2 (List.mem_reverse.mp hc2)
        · exact ih [] (by simp) t h
    · rw [if_neg hsp] at ht
      refine ih (c :: acc) ?hyp t ht
      intro c2 hc2
      rcases List.mem_cons.mp hc2 with h | h
      · subst h; simpa using hsp
      · exact hacc c2 h

theorem splitWSAcc_nosplit :
    ∀ (t acc : List Char), (∀ c ∈ t, pyIsSpace c = false) →
      splitWSAcc t acc = if acc = [] ∧ t = [] then [] else [acc.reverse ++ t] := by
  intro t
  induction t with
  | nil =>
    intro acc h
    simp only [splitWSAcc, List.append_nil]
    by_cases ha : acc = [] <;> simp [ha]
  | cons c cs ih =>
    intro acc h
    have hc : pyIsSpace c = false := h c (List.mem_cons_self c cs)
    simp only [splitWSAcc]
    rw [if_neg (by simp [hc])]
    rw [ih (c :: acc) (fun c2 hc2 => h c2 (List.mem_cons_of_mem c hc2))]
    rw [if_neg (by simp)]
    simp

theorem pySplit_append_space (s extra : String) :
    pySplit (s ++ " " ++ extra) = pySplit s ++ pySplit extra := by
  unfold pySplit splitWS
  rw [show (s ++ " " ++ extra).data = s.data ++ ' ' :: extra.data by
    simp [String.data_append]]
  rw [splitWSAcc_append_space]
  simp

theorem pySplit_single (t : String) (hne : t.data ≠ [])
    (hns : ∀ c ∈ t.data, pyIsSpace c = false) : pySplit t = [t] := by
  unfold pySplit splitWS
  rw [splitWSAcc_nosplit t.data [] hns]
  rw [if_neg (by simp [hne])]
  simp only [List.reverse_nil, List.nil_append, List.map_cons, List.map_nil]

theorem pySplit_joinSpace :
    ∀ ts : List String, (∀ t ∈ ts, t.data ≠ [] ∧ ∀ c ∈ t.data, pyIsSpace c = false) →
      pySplit (joinSpace ts) = ts := by
  intro ts
  induction ts with
  | nil => intro _; rfl
  | cons t ts2 ih =>
    intro h
    cases ts2 with
    | nil =>
      show pySplit t = [t]
      exact pySplit_single t (h t (List.mem_cons_self t [])).1 (h t (List.mem_cons_self t [])).2
    | cons t2 ts3 =>
      show pySplit (t ++ " " ++ joinSpace (t2 :: ts3)) = t :: t2 :: ts3
      rw [pySplit_append_space]
      rw [pySplit_single t (h t (List.mem_cons_self t _)).1 (h t (List.mem_cons_self t _)).2]
      rw [ih (fun x hx => h x (List.mem_cons_of_mem t hx))]
      rfl

theorem pySplit_tokens (s : String) :
    ∀ t ∈ pySplit s, t.data ≠ [] ∧ ∀ c ∈ t.data, pyIsSpace c = false := by
  intro t ht
  unfold pySplit splitWS at ht
  rcases List.mem_map.mp ht with ⟨tok, htok, rfl⟩
  exact splitWSAcc_tokens s.data [] (by simp) tok htok

/-- C10: `parse` reduces its input to the first (spaces-in-format)+1
whitespace-separated tokens joined by single spaces, so (i) whatever
follows those tokens after a space is ignored, (ii) the parse only depends
on the whitespace-normalised token sequence (runs of whitespace collapse
to one space), and (iii) trailing garbage attached directly to the final
token, with no intervening whitespace, makes `parse` fail. -/
theorem parse_token_truncation :
    (∀ (s extra fmt : String), countChar fmt ' ' + 1 ≤ (pySplit s).length →
      parse (s ++ " " ++ extra) fmt = parse s fmt) ∧
    (∀ (s fmt : String), parse s fmt = parse (joinSpace (pySplit s)) fmt) ∧
    parse "2010/08/28x" "%Y/%m/%d" = .error (.unconverted "x") := by
  refine ⟨?ignore, ?collapse, by decide⟩
  case ignore =>
    intro s extra fmt h
    simp only [parse, pySplit_append_space, List.take_append_of_le_length h]
  case collapse =>
    intro s fmt
    simp only [parse, pySplit_joinSpace (pySplit s) (pySplit_tokens s)]

/-- Witness for C10: ignoring whitespace-separated trailing garbage on a
one-token date with a spaceless format. -/
theorem parse_token_truncation_witness :
    parse ("2010/08/28" ++ " " ++ "extra stuff") "%Y/%m/%d" = parse "2010/08/28" "%Y/%m/%d" :=
  parse_token_truncation.1 "2010/08/28" "extra stuff" "%Y/%m/%d" (by decide)

/-- C4 counterexample: on `"2010/08/28x"` the strict parse fails with
exactly one unconverted trailing character, and the retract-and-retry the
claim describes would succeed (the spec-modelled `parse_spec` returns
2010-08-28), but the source's `parse` propagates the failure unchanged:
there is no retry. -/
theorem parse_retry_counterexample :
    parse "2010/08/28x" "%Y/%m/%d" = .error (.unconverted "x") ∧
    parse_spec "2010/08/28x" "%Y/%m/%d" = .ok ⟨2010, 8, 28, 0, 0, 0, 0⟩ ∧
    parse "2010/08/28x" "%Y/%m/%d" ≠ parse_spec "2010/08/28x" "%Y/%m/%d" :=
  ⟨by decide, by decide, by decide⟩

/-- C4 amended: `parse` makes exactly one strict-parse attempt, on the
string reduced to its first (spaces-in-format)+1 whitespace-separated
tokens; a failure of that single attempt — for any reason, including
unconverted trailing data — propagates as `CannotParse` unchanged, with no
retract-and-retry. -/
theorem parse_single_attempt (s fmt : String) (e : PErr)
    (h : strptime (joinSpace ((pySplit s).take (countChar fmt ' ' + 1))) fmt = .error e) :
    parse s fmt = .error e := by
  unfold parse
  exact h

/-- Witness for C4's amended statement: the single attempt on
`"2010/08/28x"` fails with unconverted data and `parse` propagates it. -/
theorem parse_single_attempt_witness :
    parse "2010/08/28x" "%Y/%m/%d" = .error (.unconverted "x") :=
  parse_single_attempt "2010/08/28x" "%Y/%m/%d" (.unconverted "x") (by decide)

/-! ## Bucket-frame lemmas (for C3) -/

theorem lookupRow_ensureRow_ne (rows : Rows) (ts t2 : DateTime) (temp : Row)
    (h : t2 ≠ ts) : lookupRow (ensureRow rows ts temp) t2 = lookupRow rows t2 := by
  unfold ensureRow
  split
  · rfl
  · unfold lookupRow
    rw [List.find?_append]
    have : List.find? (fun e => e.1 = t2) [(ts, temp)] = none := by
      simp [List.find?, Ne.symm h]
    rw [this]
    cases List.find? (fun e => e.1 = t2) rows <;> rfl

theorem lookupRow_bumpRow_ne :
    ∀ (rows : Rows) (ts t2 : DateTime) (s : String), t2 ≠ ts →
      lookupRow (bumpRow rows ts s) t2 = lookupRow rows t2 := by
  intro rows
  induction rows with
  | nil => intros; rfl
  | cons e r ih =>
    intro ts t2 s h
    rcases e with ⟨t, row⟩
    unfold bumpRow
    by_cases ht : t = ts
    · rw [if_pos ht]
      unfold lookupRow
      rw [List.find?, List.find?]
      have : (decide (t = t2)) = false := by
        subst ht; simp [Ne.symm h]
      simp only [this]
    · rw [if_neg ht]
      unfold lookupRow
      rw [List.find?, List.find?]
      cases hd : (decide (t = t2)) with
      | true => rfl
      | false => exact ih ts t2 s h

theorem lookupRow_foldbump_ne (ts t2 : DateTime) (line : String) (h : t2 ≠ ts) :
    ∀ (ms : List String) (rows : Rows),
      lookupRow (ms.foldl
        (fun r expr => if (compileLit expr).search line then bumpRow r ts expr else r) rows) t2
        = lookupRow rows t2 := by
  intro ms
  induction ms with
  | nil => intro rows; rfl
  | cons m ms2 ih =>
    intro rows
    simp only [List.foldl_cons]
    rw [ih]
    split
    · exact lookupRow_bumpRow_ne rows ts t2 m h
    · rfl

/-- C3: when `date_chop` fails on a non-empty line, the per-line step
leaves the current timestamp unchanged and modifies no bucket other than
the current one, so the line's matches are counted in the last established
bucket; end-to-end, scanning the two-line input with predicate "Pushing"
and resolution 60 produces exactly the bucket 2010-08-30 13:57:00 with
count 1. -/
theorem grep_carry_forward :
    (∀ (df : String) (res : Int) (ms : List String) (st : DateTime × Rows)
        (rawline : String) (e : PErr),
      pyStrip rawline ≠ "" →
      date_chop (pyStrip rawline) df res = .error e →
      (grep_line df res ms st rawline).1 = st.1 ∧
      (∀ t2 : DateTime, t2 ≠ st.1 →
        lookupRow (grep_line df res ms st rawline).2 t2 = lookupRow st.2 t2)) ∧
    grep_files [["2010/08/30 13:57:14", "Pushing up the daisies"]] ["Pushing"] "guess" 60 =
      .ok [(⟨2010, 8, 30, 13, 57, 0, 0⟩, [("Pushing", 1)])] := by
  constructor
  · intro df res ms st rawline e hne herr
    have hstep : grep_line df res ms st rawline =
        (st.1, ms.foldl
          (fun r expr =>
            if (compileLit expr).search (pyStrip rawline) then bumpRow r st.1 expr else r)
          (ensureRow st.2 st.1 (ms.map (fun m => (m, 0))))) := by
      simp only [grep_line]
      rw [if_neg hne, herr]
    rw [hstep]
    refine ⟨rfl, ?frame⟩
    intro t2 h2
    rw [lookupRow_foldbump_ne st.1 t2 (pyStrip rawline) h2]
    exact lookupRow_ensureRow_ne st.2 st.1 t2 _ h2
  · decide

/-- Witness for C3's per-line statement at the concrete content line. -/
theorem grep_carry_forward_witness :
    (grep_line "%Y/%m/%d %H:%M:%S" 60 ["Pushing"]
      (⟨2010, 8, 30, 13, 57, 0, 0⟩, []) "Pushing up the daisies").1 =
      (⟨2010, 8, 30, 13, 57, 0, 0⟩ : DateTime) :=
  (grep_carry_forward.1 "%Y/%m/%d %H:%M:%S" 60 ["Pushing"]
    (⟨2010, 8, 30, 13, 57, 0, 0⟩, []) "Pushing up the daisies" .noMatch
    (by decide) (by decide)).1

/-- C6 counterexample: two files in different date formats.  File 2's own
guessed format parses its line to the bucket 2010-08-30 13:57:00, but the
scan reuses the format guessed from file 1, so file 2's line fails to
parse and lands in the 1970-01-01 sentinel bucket: the format applied to a
file's lines is not the one guessed from that same file. -/
theorem grep_guess_not_per_file :
    guess_file_date_format ["2010/08/30 13:57:14 world"] = .ok "%Y/%m/%d %H:%M:%S" ∧
    date_chop "2010/08/30 13:57:14 world" "%Y/%m/%d %H:%M:%S" 60 =
      .ok ⟨2010, 8, 30, 13, 57, 0, 0⟩ ∧
    grep_files [["01/28/10 1:25:49 PM hello"], ["2010/08/30 13:57:14 world"]]
      ["world"] "guess" 60 =
      .ok [(⟨1970, 1, 1, 0, 0, 0, 0⟩, [("world", 1)]),
           (⟨2010, 1, 28, 13, 25, 0, 0⟩, [("world", 0)])] :=
  ⟨by decide, by decide, by decide⟩

/-- C6 amended: when guessing is requested, the format is guessed once,
from the first file, and that format (which overwrites the "guess"
request) is reused for all lines of every file: the scan behaves exactly
as if it had been called with the first file's guessed format. -/
theorem grep_guess_first_file_only (f1 : List String) (fs : List (List String))
    (ms : List String) (res : Int) (fmt : String)
    (hg : guess_file_date_format f1 = .ok fmt) (h1 : fmt ≠ "") (h2 : fmt ≠ "guess") :
    grep_files (f1 :: fs) ms "guess" res = grep_files (f1 :: fs) ms fmt res := by
  unfold grep_files grep_go
  rw [if_pos (Or.inr rfl), if_neg (fun hor => hor.elim h1 h2), hg]

/-- Witness for C6's amended statement at the two-file input. -/
theorem grep_guess_first_file_only_witness :
    grep_files [["01/28/10 1:25:49 PM hello"], ["2010/08/30 13:57:14 world"]]
      ["world"] "guess" 60 =
    grep_files [["01/28/10 1:25:49 PM hello"], ["2010/08/30 13:57:14 world"]]
      ["world"] "%m/%d/%y %I:%M:%S %p" 60 :=
  grep_guess_first_file_only ["01/28/10 1:25:49 PM hello"]
    [["2010/08/30 13:57:14 world"]] ["world"] 60 "%m/%d/%y %I:%M:%S %p"
    (by decide) (by decide) (by decide)

/-! ## Sortedness lemmas (for C7) -/

theorem lexLe_total : ∀ (a b : List Int), lexLe a b = true ∨ lexLe b a = true := by
  intro a
  induction a with
  | nil => intro b; left; rfl
  | cons x xs ih =>
    intro b
    cases b with
    | nil => right; rfl
    | cons y ys =>
      simp only [lexLe]
      by_cases h1 : x < y
      · left; rw [if_pos h1]
      · by_cases h2 : y < x
        · right; rw [if_pos h2]
        · rw [if_neg h1, if_neg h2, if_neg h2, if_neg h1]
          exact ih ys

theorem lexLe_trans : ∀ (a b c : List Int),
    lexLe a b = true → lexLe b c = true → lexLe a c = true := by
  intro a
  induction a with
  | nil => intros; rfl
  | cons x xs ih =>
    intro b c hab hbc
    cases b with
    | nil => simp [lexLe] at hab
    | cons y ys =>
      cases c with
      | nil => simp [lexLe] at hbc
      | cons z zs =>
        simp only [lexLe] at hab hbc ⊢
        by_cases hxy : x < y
        · have hyz : y ≤ z := by
            by_cases h : y < z
            · omega
            · by_cases h2 : z < y
              · rw [if_neg h, if_pos h2] at hbc; cases hbc
              · omega
          rw [if_pos (by omega : x < z)]
        · by_cases hyx : y < x
          · rw [if_neg hxy, if_pos hyx] at hab; cases hab
          · have hxey : x = y := by omega
            subst hxey
            rw [if_neg hxy, if_neg hyx] at hab
            by_cases hxz : x < z
            · rw [if_pos hxz]
            · by_cases hzx : z < x
              · rw [if_neg hxz, if_pos hzx] at hbc; cases hbc
              · rw [if_neg hxz, if_neg hzx] at hbc ⊢
                exact ih ys zs hab hbc

theorem dtLe_total (a b : DateTime) : dtLe a b = true ∨ dtLe b a = true :=
  lexLe_total (dtList a) (dtList b)

theorem dtLe_trans (a b c : DateTime) (h1 : dtLe a b = true) (h2 : dtLe b c = true) :
    dtLe a c = true :=
  lexLe_trans (dtList a) (dtList b) (dtList c) h1 h2

theorem mem_insertRow (x : DateTime × Row) :
    ∀ (l : Rows) (z : DateTime × Row), z ∈ insertRow x l → z = x ∨ z ∈ l := by
  intro l
  induction l with
  | nil =>
    intro z hz
    simp only [insertRow, List.mem_singleton] at hz
    exact Or.inl hz
  | cons y ys ih =>
    intro z hz
    simp only [insertRow] at hz
    split at hz
    · rcases List.mem_cons.mp hz with h | h
      · exact Or.inl h
      · exact Or.inr h
    · rcases List.mem_cons.mp hz with h | h
      · exact Or.inr (h ▸ List.mem_cons_self y ys)
      · rcases ih z h with h2 | h2
        · exact Or.inl h2
        · exact Or.inr (List.mem_cons_of_mem y h2)

theorem pairwise_insertRow (x : DateTime × Row) :
    ∀ l : Rows, l.Pairwise (fun p q => dtLe p.1 q.1 = true) →
      (insertRow x l).Pairwise (fun p q => dtLe p.1 q.1 = true) := by
  intro l
  induction l with
  | nil => intro _; simp [insertRow]
  | cons y ys ih =>
    intro hp
    rcases List.pairwise_cons.mp hp with ⟨hy, hys⟩
    simp only [insertRow]
    split
    next hle =>
      refine List.pairwise_cons.mpr ⟨?bound, hp⟩
      intro z hz
      rcases List.mem_cons.mp hz with h | h
      · rw [h]; exact hle
      · exact dtLe_trans x.1 y.1 z.1 hle (hy z h)
    next hle =>
      refine List.pairwise_cons.mpr ⟨?bound2, ih hys⟩
      intro z hz
      rcases mem_insertRow x ys z hz with h | h
      · rw [h]
        rcases dtLe_total x.1 y.1 with h2 | h2
        · exact absurd h2 hle
        · exact h2
      · exact hy z h

theorem sortRows_pairwise (rs : Rows) :
    (sortRows rs).Pairwise (fun p q => dtLe p.1 q.1 = true) := by
  unfold sortRows
  induction rs with
  | nil => simp
  | cons r rs2 ih =>
    simp only [List.foldr_cons]
    exact pairwise_insertRow r _ ih

theorem grep_go_sorted (ms : List String) (res : Int) :
    ∀ (files : List (List String)) (df : String) (rows : Rows) (out : Rows),
      grep_go ms res df rows files = .ok out → ∃ rs, out = sortRows rs := by
  intro files
  induction files with
  | nil =>
    intro df rows out h
    unfold grep_go at h
    cases h
    exact ⟨rows, rfl⟩
  | cons f fs ih =>
    intro df rows out h
    unfold grep_go at h
    by_cases hc : df = "" ∨ df = "guess"
    · cases hg : guess_file_date_format f with
      | error e =>
        simp only [if_pos hc, hg, bind, Except.bind] at h
        cases h
      | ok df2 =>
        simp only [if_pos hc, hg, bind, Except.bind] at h
        exact ih df2 _ out h
    · simp only [if_neg hc, bind, Except.bind] at h
      exact ih df _ out h

/-- C7: every successful scan returns its buckets sorted by bucket key
ascending (Python `datetime` order), across all input files as one global
sequence; concretely, scanning a later-window file before an
earlier-window file still lists the earlier bucket first. -/
theorem grep_files_sorted :
    (∀ (files : List (List String)) (ms : List String) (df : String) (res : Int) (out : Rows),
      grep_files files ms df res = .ok out →
      out.Pairwise (fun p q => dtLe p.1 q.1 = true)) ∧
    grep_files [["2010/08/30 14:05:37 alpha"], ["2010/08/30 13:57:14 beta"]]
      ["alpha", "beta"] "%Y/%m/%d %H:%M:%S" 60 =
      .ok [(⟨2010, 8, 30, 13, 57, 0, 0⟩, [("alpha", 0), ("beta", 1)]),
           (⟨2010, 8, 30, 14, 5, 0, 0⟩, [("alpha", 1), ("beta", 0)])] := by
  constructor
  · intro files ms df res out h
    rcases grep_go_sorted ms res files df [] out h with ⟨rs, hout⟩
    subst hout
    exact sortRows_pairwise rs
  · decide

/-- Witness for C7's sortedness statement at the two-file input. -/
theorem grep_files_sorted_witness :
    ([(⟨2010, 8, 30, 13, 57, 0, 0⟩, [("alpha", 0), ("beta", 1)]),
      (⟨2010, 8, 30, 14, 5, 0, 0⟩, [("alpha", 1), ("beta", 0)])] : Rows).Pairwise
      (fun p q => dtLe p.1 q.1 = true) :=
  grep_files_sorted.1 [["2010/08/30 14:05:37 alpha"], ["2010/08/30 13:57:14 beta"]]
    ["alpha", "beta"] "%Y/%m/%d %H:%M:%S" 60
    [(⟨2010, 8, 30, 13, 57, 0, 0⟩, [("alpha", 0), ("beta", 1)]),
     (⟨2010, 8, 30, 14, 5, 0, 0⟩, [("alpha", 1), ("beta", 0)])]
    (by decide)

/-! ## Calendar lemmas (for C2) -/

theorem daysInYearN_ge (y : Int) : 365 ≤ daysInYearN y := by
  unfold daysInYearN
  split <;> omega

theorem dby_succ (y : Int) : dby (y + 1) = dby y + (daysInYearN y : Int) := by
  unfold dby
  by_cases h : 1970 ≤ y
  · rw [if_pos (by omega), if_pos h]
    have hk : (y + 1 - 1970).toNat = (y - 1970).toNat + 1 := by omega
    rw [hk]
    rw [show upSum ((y - 1970).toNat + 1)
        = upSum (y - 1970).toNat + daysInYearN (1970 + ((y - 1970).toNat : Int)) from rfl]
    have hy : (1970 : Int) + ((y - 1970).toNat : Int) = y := by omega
    rw [hy]
    push_cast
    ring
  · by_cases h2 : 1970 ≤ y + 1
    · have hy : y = 1969 := by omega
      subst hy
      rw [if_pos h2, if_neg h]
      rw [show ((1969 + 1 - 1970 : Int)).toNat = 0 by decide]
      rw [show ((1970 - 1969 : Int)).toNat = 1 by decide]
      rw [show downSum 1 = downSum 0 + daysInYearN (1969 - ((0 : Nat) : Int)) from rfl]
      norm_num [upSum, downSum]
    · rw [if_neg h2, if_neg h]
      have hk : (1970 - y).toNat = (1970 - (y + 1)).toNat + 1 := by omega
      rw [hk]
      rw [show downSum ((1970 - (y + 1)).toNat + 1)
          = downSum (1970 - (y + 1)).toNat
            + daysInYearN (1969 - ((1970 - (y + 1)).toNat : Int)) from rfl]
      have hy : (1969 : Int) - ((1970 - (y + 1)).toNat : Int) = y := by omega
      rw [hy]
      push_cast
      ring

theorem dby_mono {y1 y2 : Int} (h : y1 ≤ y2) : dby y1 ≤ dby y2 := by
  exact @Int.le_induction (fun y => dby y1 ≤ dby y) y1 (Int.le_refl _)
    (fun n hn ih => by
      show dby y1 ≤ dby (n + 1)
      rw [dby_succ n]
      have h365 := daysInYearN_ge n
      have hle : dby y1 ≤ dby n := ih
      omega) y2 h

theorem dby_step {y1 y2 : Int} (h : y1 < y2) :
    dby y1 + (daysInYearN y1 : Int) ≤ dby y2 := by
  rw [← dby_succ y1]
  exact dby_mono (by omega)

theorem goUpF_correct :
    ∀ (fuel : Nat) (y : Int) (z : Nat), z < 365 * fuel →
      ((goUpF fuel y z).2 : Int) < daysInYearN (goUpF fuel y z).1 ∧
      dby (goUpF fuel y z).1 + ((goUpF fuel y z).2 : Int) = dby y + z := by
  intro fuel
  induction fuel with
  | zero => intro y z h; omega
  | succ fu ih =>
    intro y z h
    simp only [goUpF]
    split
    next hlt => exact ⟨by exact_mod_cast hlt, rfl⟩
    next hge =>
      have h365 := daysInYearN_ge y
      have hzge : daysInYearN y ≤ z := by omega
      have hrec := ih (y + 1) (z - daysInYearN y) (by omega)
      refine ⟨hrec.1, ?eq⟩
      rw [hrec.2, dby_succ y]
      omega

theorem goDownF_correct :
    ∀ (fuel : Nat) (y : Int) (n : Nat), 1 ≤ n → n ≤ 365 * fuel →
      ((goDownF fuel y n).2 : Int) < daysInYearN (goDownF fuel y n).1 ∧
      dby (goDownF fuel y n).1 + ((goDownF fuel y n).2 : Int) = dby y - n := by
  intro fuel
  induction fuel with
  | zero => intro y n h1 h2; omega
  | succ fu ih =>
    intro y n h1 h2
    simp only [goDownF]
    have h365 := daysInYearN_ge (y - 1)
    have hsucc := dby_succ (y - 1)
    rw [show y - 1 + 1 = y by ring] at hsucc
    split
    next hle =>
      refine ⟨?ha, ?hb⟩
      · show ((daysInYearN (y - 1) - n : Nat) : Int) < daysInYearN (y - 1)
        omega
      · show dby (y - 1) + ((daysInYearN (y - 1) - n : Nat) : Int) = dby y - n
        omega
    next hgt =>
      have hrec := ih (y - 1) (n - daysInYearN (y - 1)) (by omega) (by omega)
      refine ⟨hrec.1, ?eq2⟩
      rw [hrec.2]
      omega

theorem dby_1970 : dby 1970 = 0 := by decide

theorem yearAndDoy_correct (z : Int) :
    ((yearAndDoy z).2 : Int) < daysInYearN (yearAndDoy z).1 ∧
    dby (yearAndDoy z).1 + ((yearAndDoy z).2 : Int) = z := by
  unfold yearAndDoy goUp goDown
  split
  next h =>
    have hc := goUpF_correct (z.toNat + 1) 1970 z.toNat (by omega)
    refine ⟨hc.1, ?eqa⟩
    rw [hc.2, dby_1970]
    omega
  next h =>
    have hc := goDownF_correct (-z).toNat 1970 (-z).toNat (by omega) (by omega)
    refine ⟨hc.1, ?eqb⟩
    rw [hc.2, dby_1970]
    omega

theorem yearAndDoy_eq (z y : Int) (doy : Nat) (h : yearAndDoy z = (y, doy)) :
    ((doy : Int) < daysInYearN y) ∧ dby y + (doy : Int) = z := by
  have hc := yearAndDoy_correct z
  rw [h] at hc
  exact hc

theorem yearAndDoy_unique (y : Int) (d : Nat) (hd : (d : Int) < daysInYearN y) :
    yearAndDoy (dby y + d) = (y, d) := by
  have hc := yearAndDoy_correct (dby y + d)
  rcases hc with ⟨hlt, heq⟩
  have hY : (yearAndDoy (dby y + d)).1 = y := by
    rcases lt_trichotomy (yearAndDoy (dby y + d)).1 y with h | h | h
    · have hstep := dby_step h
      omega
    · exact h
    · have hstep := dby_step h
      omega
  have hD : (yearAndDoy (dby y + d)).2 = d := by
    rw [hY] at heq
    omega
  rw [show yearAndDoy (dby y + d)
      = ((yearAndDoy (dby y + d)).1, (yearAndDoy (dby y + d)).2) from rfl, hY, hD]

theorem sum_take_succ :
    ∀ (ms : List Nat) (k : Nat), k < ms.length →
      (ms.take (k + 1)).sum = (ms.take k).sum + ms.getD k 0 := by
  intro ms
  induction ms with
  | nil => intro k h; simp at h
  | cons L rest ih =>
    intro k h
    cases k with
    | zero => simp
    | succ k2 =>
      simp only [List.take_succ_cons, List.sum_cons, List.getD_cons_succ]
      rw [ih k2 (by simpa using h)]
      omega

theorem sum_take_le_sum : ∀ (ms : List Nat) (k : Nat), (ms.take k).sum ≤ ms.sum := by
  intro ms
  induction ms with
  | nil => intro k; simp
  | cons L rest ih =>
    intro k
    cases k with
    | zero => simp
    | succ k2 =>
      simp only [List.take_succ_cons, List.sum_cons]
      have := ih k2
      omega

theorem sum_take_mono (ms : List Nat) :
    ∀ (a b : Nat), a ≤ b → (ms.take a).sum ≤ (ms.take b).sum := by
  induction ms with
  | nil => intro a b _; simp
  | cons L rest ih =>
    intro a b hab
    cases a with
    | zero => simp
    | succ a2 =>
      cases b with
      | zero => omega
      | succ b2 =>
        simp only [List.take_succ_cons, List.sum_cons]
        have := ih a2 b2 (by omega)
        omega

theorem monthLens_sum (y : Int) : (monthLens y).sum = daysInYearN y := by
  unfold monthLens daysInYearN
  by_cases h : isLeap y = true <;> simp [h]

theorem monthLens_length (y : Int) : (monthLens y).length = 12 := by
  unfold monthLens
  simp

theorem monthLen_getD (y m : Int) (h1 : 1 ≤ m) (h2 : m ≤ 12) :
    monthLen y m = (((monthLens y).getD (m - 1).toNat 0 : Nat) : Int) := by
  have hm : m = 1 ∨ m = 2 ∨ m = 3 ∨ m = 4 ∨ m = 5 ∨ m = 6 ∨ m = 7 ∨ m = 8 ∨
      m = 9 ∨ m = 10 ∨ m = 11 ∨ m = 12 := by omega
  rcases hm with rfl | rfl | rfl | rfl | rfl | rfl | rfl | rfl | rfl | rfl | rfl | rfl <;>
    · unfold monthLen monthLens
      by_cases h : isLeap y = true <;> simp [h]

theorem findMonth_spec :
    ∀ (ms : List Nat) (i d : Nat), d < ms.sum →
      ∃ k dd, findMonth ms i d = (i + k, dd) ∧ k < ms.length ∧ 1 ≤ dd ∧
        dd ≤ ms.getD k 0 ∧ (ms.take k).sum + dd = d + 1 := by
  intro ms
  induction ms with
  | nil => intro i d h; simp at h
  | cons L rest ih =>
    intro i d h
    simp only [findMonth]
    split
    next hlt =>
      refine ⟨0, d + 1, by simp, by simp, by omega, by simpa using hlt, by simp⟩
    next hge =>
      have hL : L ≤ d := by omega
      have hd2 : d - L < rest.sum := by
        simp only [List.sum_cons] at h
        omega
      rcases ih (i + 1) (d - L) hd2 with ⟨k, dd, heq, hk, h1, h2, h3⟩
      refine ⟨k + 1, dd, ?eq, by simpa using hk, h1, by simpa using h2, ?sum⟩
      · rw [heq]
        have : i + 1 + k = i + (k + 1) := by omega
        rw [this]
      · simp only [List.take_succ_cons, List.sum_cons]
        omega

theorem findMonth_unique :
    ∀ (ms : List Nat) (k i dd : Nat), k < ms.length → 1 ≤ dd → dd ≤ ms.getD k 0 →
      findMonth ms i ((ms.take k).sum + dd - 1) = (i + k, dd) := by
  intro ms
  induction ms with
  | nil => intro k i dd h; simp at h
  | cons L rest ih =>
    intro k i dd hk h1 h2
    cases k with
    | zero =>
      simp only [List.take_zero, List.sum_nil, List.getD_cons_zero] at h2 ⊢
      simp only [Nat.zero_add, findMonth]
      rw [if_pos (by omega)]
      have : dd - 1 + 1 = dd := by omega
      rw [this, Nat.add_zero]
    | succ k2 =>
      simp only [List.take_succ_cons, List.sum_cons, List.getD_cons_succ] at h2 ⊢
      simp only [findMonth]
      rw [if_neg (by omega)]
      have harg : L + (rest.take k2).sum + dd - 1 - L = (rest.take k2).sum + dd - 1 := by
        omega
      rw [harg, ih k2 (i + 1) dd (by simpa using hk) h1 h2]
      have : i + 1 + k2 = i + (k2 + 1) := by omega
      rw [this]

theorem mktime_fromtimestamp (s : Int) : mktime (fromtimestamp s) = s := by
  rcases hYD : yearAndDoy (Int.fdiv s 86400) with ⟨y, doy⟩
  have hya := yearAndDoy_eq (Int.fdiv s 86400) y doy hYD
  have hdoy : doy < (monthLens y).sum := by
    rw [monthLens_sum]
    exact_mod_cast hya.1
  rcases findMonth_spec (monthLens y) 1 doy hdoy with ⟨k, dd2, heq, hk, h1, h2, h3⟩
  simp only [fromtimestamp, hYD]
  rw [heq]
  simp only [mktime, daysFromCivil]
  have hm1 : ((((1 + k : Nat) : Int)) - 1).toNat = k := by omega
  rw [hm1]
  rw [Int.fdiv_eq_ediv s (by omega)] at hya ⊢
  omega

theorem lexLe_of_head_lt {x y : Int} (xs ys : List Int) (h : x < y) :
    lexLe (x :: xs) (y :: ys) = true := by
  simp only [lexLe]
  rw [if_pos h]

theorem lexLe_of_head_eq {x : Int} (xs ys : List Int) (h : lexLe xs ys = true) :
    lexLe (x :: xs) (x :: ys) = true := by
  simp only [lexLe]
  rw [if_neg (lt_irrefl x), if_neg (lt_irrefl x)]
  exact h

theorem lexLe_refl : ∀ a : List Int, lexLe a a = true := by
  intro a
  induction a with
  | nil => rfl
  | cons x xs ih => exact lexLe_of_head_eq xs xs ih

theorem todLexLe (a b : Nat) (hab : a ≤ b) :
    lexLe [((a / 3600 : Nat) : Int), ((a % 3600 / 60 : Nat) : Int), ((a % 60 : Nat) : Int), 0]
          [((b / 3600 : Nat) : Int), ((b % 3600 / 60 : Nat) : Int), ((b % 60 : Nat) : Int), 0]
      = true := by
  by_cases h1 : a / 3600 < b / 3600
  · exact lexLe_of_head_lt _ _ (by exact_mod_cast h1)
  · have e1 : a / 3600 = b / 3600 := by omega
    rw [e1]
    by_cases h2 : a % 3600 / 60 < b % 3600 / 60
    · exact lexLe_of_head_eq _ _ (lexLe_of_head_lt _ _ (by exact_mod_cast h2))
    · have e2 : a % 3600 / 60 = b % 3600 / 60 := by omega
      rw [e2]
      by_cases h3 : a % 60 < b % 60
      · exact lexLe_of_head_eq _ _
          (lexLe_of_head_eq _ _ (lexLe_of_head_lt _ _ (by exact_mod_cast h3)))
      · have e3 : a % 60 = b % 60 := by omega
        rw [e3]
        exact lexLe_refl _

theorem fromtimestamp_mono (s1 s2 : Int) (h : s1 ≤ s2) :
    dtLe (fromtimestamp s1) (fromtimestamp s2) = true := by
  rcases hYD1 : yearAndDoy (Int.fdiv s1 86400) with ⟨y1, doy1⟩
  rcases hYD2 : yearAndDoy (Int.fdiv s2 86400) with ⟨y2, doy2⟩
  have hya1 := yearAndDoy_eq (Int.fdiv s1 86400) y1 doy1 hYD1
  have hya2 := yearAndDoy_eq (Int.fdiv s2 86400) y2 doy2 hYD2
  have hdoy1 : doy1 < (monthLens y1).sum := by
    rw [monthLens_sum]; exact_mod_cast hya1.1
  have hdoy2 : doy2 < (monthLens y2).sum := by
    rw [monthLens_sum]; exact_mod_cast hya2.1
  rcases findMonth_spec (monthLens y1) 1 doy1 hdoy1 with ⟨k1, dd1, heq1, hk1, h11, h21, h31⟩
  rcases findMonth_spec (monthLens y2) 1 doy2 hdoy2 with ⟨k2, dd2, heq2, hk2, h12, h22, h32⟩
  simp only [fromtimestamp, hYD1, hYD2]
  rw [heq1, heq2]
  simp only [dtLe, dtList]
  have hfd : Int.fdiv s1 86400 ≤ Int.fdiv s2 86400 := by
    rw [Int.fdiv_eq_ediv _ (by omega), Int.fdiv_eq_ediv _ (by omega)]
    omega
  have hy12 : y1 ≤ y2 := by
    by_contra hcon
    push_neg at hcon
    have := dby_step hcon
    omega
  by_cases hylt : y1 < y2
  · exact lexLe_of_head_lt _ _ hylt
  · have hyeq : y1 = y2 := by omega
    subst hyeq
    have hdoyle : doy1 ≤ doy2 := by omega
    have hk12 : k1 ≤ k2 := by
      by_contra hcon
      push_neg at hcon
      have hss := sum_take_succ (monthLens y1) k2 hk2
      have hsm := sum_take_mono (monthLens y1) (k2 + 1) k1 (by omega)
      omega
    by_cases hklt : k1 < k2
    · refine lexLe_of_head_eq _ _ (lexLe_of_head_lt _ _ ?hm)
      exact_mod_cast (by omega : (1 + k1 : Nat) < 1 + k2)
    · have hkeq : k1 = k2 := by omega
      subst hkeq
      have hddle : dd1 ≤ dd2 := by omega
      by_cases hddlt : dd1 < dd2
      · exact lexLe_of_head_eq _ _
          (lexLe_of_head_eq _ _ (lexLe_of_head_lt _ _ (by exact_mod_cast hddlt)))
      · have hddeq : dd1 = dd2 := by omega
        subst hddeq
        have hdeq : Int.fdiv s1 86400 = Int.fdiv s2 86400 := by omega
        have hsod : (s1 - 86400 * Int.fdiv s1 86400).toNat
            ≤ (s2 - 86400 * Int.fdiv s2 86400).toNat := by
          rw [hdeq, Int.fdiv_eq_ediv _ (by omega)]
          omega
        exact lexLe_of_head_eq _ _
          (lexLe_of_head_eq _ _ (lexLe_of_head_eq _ _ (todLexLe _ _ hsod)))

theorem fromtimestamp_mktime (t : DateTime) (h : ValidDT t) :
    fromtimestamp (mktime t) = ⟨t.year, t.month, t.day, t.hour, t.minute, t.second, 0⟩ := by
  obtain ⟨hm1, hm2, hd1, hd2, hh1, hh2, hmi1, hmi2, hs1, hs2, hmic⟩ := h
  have hml := monthLen_getD t.year t.month hm1 hm2
  have hlen : (t.month - 1).toNat < (monthLens t.year).length := by
    rw [monthLens_length]; omega
  have hdd : t.day.toNat ≤ (monthLens t.year).getD (t.month - 1).toNat 0 := by omega
  have h1dd : 1 ≤ t.day.toNat := by omega
  have hfm := findMonth_unique (monthLens t.year) (t.month - 1).toNat 1 t.day.toNat
    hlen h1dd hdd
  have hss := sum_take_succ (monthLens t.year) (t.month - 1).toNat hlen
  have hsle := sum_take_le_sum (monthLens t.year) ((t.month - 1).toNat + 1)
  rw [monthLens_sum] at hsle
  have hn_lt : ((((monthLens t.year).take (t.month - 1).toNat).sum + t.day.toNat - 1 : Nat) : Int)
      < daysInYearN t.year := by omega
  have hyd := yearAndDoy_unique t.year
    (((monthLens t.year).take (t.month - 1).toNat).sum + t.day.toNat - 1) hn_lt
  have hmk : mktime t = (dby t.year
      + ((((monthLens t.year).take (t.month - 1).toNat).sum + t.day.toNat - 1 : Nat) : Int)) * 86400
      + (t.hour * 3600 + t.minute * 60 + t.second) := by
    simp only [mktime, daysFromCivil]
    omega
  have hdays : Int.fdiv (mktime t) 86400
      = dby t.year + ((((monthLens t.year).take (t.month - 1).toNat).sum + t.day.toNat - 1 : Nat) : Int) := by
    rw [hmk]
    rw [Int.fdiv_eq_ediv _ (by omega)]
    omega
  simp only [fromtimestamp]
  rw [hdays, hyd]
  dsimp only
  rw [hfm]
  simp only [DateTime.mk.injEq]
  repeat' apply And.intro
  all_goals first
  | trivial
  | omega

theorem dtLe_zeroMicro (t : DateTime) (h : 0 ≤ t.micro) :
    dtLe ⟨t.year, t.month, t.day, t.hour, t.minute, t.second, 0⟩ t = true := by
  simp only [dtLe, dtList]
  refine lexLe_of_head_eq _ _ (lexLe_of_head_eq _ _ (lexLe_of_head_eq _ _
    (lexLe_of_head_eq _ _ (lexLe_of_head_eq _ _ (lexLe_of_head_eq _ _ ?last)))))
  simp only [lexLe]
  by_cases h0 : (0 : Int) < t.micro
  · rw [if_pos h0]
  · rw [if_neg h0, if_neg (by omega : ¬ t.micro < 0)]

theorem pyDateTimeNew_ok (t u : DateTime) (h : pyDateTimeNew t = .ok u) :
    u = t ∧ ValidDT t := by
  unfold pyDateTimeNew at h
  split at h
  next hcond =>
    cases h
    refine ⟨rfl, ?v⟩
    simp only [ValidDT]
    omega
  next => cases h

theorem parse_ok_valid (line fmt : String) (t : DateTime)
    (h : parse line fmt = .ok t) : ValidDT t := by
  simp only [parse, strptime] at h
  cases hsm : stpMatch (compileFormat fmt.data)
      (joinSpace ((pySplit line).take (countChar fmt ' ' + 1))).data Fields.empty with
  | nil => rw [hsm] at h; cases h
  | cons pr tail =>
    rw [hsm] at h
    rcases pr with ⟨fl, rest⟩
    have h2 : (if rest.isEmpty
        then buildDT fl else .error (.unconverted (String.mk rest))) = Except.ok t := h
    by_cases hre : rest.isEmpty
    · rw [if_pos hre] at h2
      have h3 : pyDateTimeNew _ = Except.ok t := h2
      obtain ⟨hu, hv⟩ := pyDateTimeNew_ok _ t h3
      rw [hu]
      exact hv
    · rw [if_neg hre] at h2
      cases h2

/-- C2: the bucketing step converts the timestamp to epoch seconds,
floor-divides by the resolution, multiplies back and converts back, so the
bucket's epoch value is exactly the floored multiple (first conjunct);
consequently, for every successfully parsed timestamp T,
bucket(T,3600) ≤ bucket(T,60) ≤ T in `datetime` order, and the two
concrete `date_chop` examples truncate 12:05:17 to 12:05:00 (resolution
60) and 12:00:00 (resolution 3600). -/
theorem date_chop_floor_semantics :
    (∀ (t : DateTime) (r : Int), mktime (chopDT t r) = Int.fdiv (mktime t) r * r) ∧
    (∀ (line fmt : String) (t : DateTime), parse line fmt = .ok t →
      dtLe (chopDT t 3600) (chopDT t 60) = true ∧ dtLe (chopDT t 60) t = true) ∧
    date_chop "1976/05/19 12:05:17" "%Y/%m/%d %H:%M:%S" 60 = .ok ⟨1976, 5, 19, 12, 5, 0, 0⟩ ∧
    date_chop "1976/05/19 12:05:17" "%Y/%m/%d %H:%M:%S" 3600 = .ok ⟨1976, 5, 19, 12, 0, 0, 0⟩ := by
  refine ⟨?floor, ?order, by decide, by decide⟩
  case floor =>
    intro t r
    unfold chopDT
    exact mktime_fromtimestamp _
  case order =>
    intro line fmt t hparse
    have hv := parse_ok_valid line fmt t hparse
    constructor
    · unfold chopDT
      apply fromtimestamp_mono
      rw [Int.fdiv_eq_ediv _ (by omega : (0:Int) ≤ 3600),
        Int.fdiv_eq_ediv _ (by omega : (0:Int) ≤ 60)]
      omega
    · have h1 : dtLe (chopDT t 60) (fromtimestamp (mktime t)) = true := by
        unfold chopDT
        apply fromtimestamp_mono
        rw [Int.fdiv_eq_ediv _ (by omega : (0:Int) ≤ 60)]
        omega
      have h2 : fromtimestamp (mktime t)
          = ⟨t.year, t.month, t.day, t.hour, t.minute, t.second, 0⟩ :=
        fromtimestamp_mktime t hv
      rw [h2] at h1
      have h3 : dtLe (⟨t.year, t.month, t.day, t.hour, t.minute, t.second, 0⟩ : DateTime) t
          = true := dtLe_zeroMicro t (by
        obtain ⟨_, _, _, _, _, _, _, _, _, _, hm⟩ := hv
        exact hm)
      exact dtLe_trans _ _ _ h1 h3

/-- Witness for C2's ordering statement at the concrete parsed timestamp
1976-05-19 12:05:17. -/
theorem date_chop_floor_semantics_witness :
    dtLe (chopDT ⟨1976, 5, 19, 12, 5, 17, 0⟩ 3600) (chopDT ⟨1976, 5, 19, 12, 5, 17, 0⟩ 60)
      = true ∧
    dtLe (chopDT ⟨1976, 5, 19, 12, 5, 17, 0⟩ 60) ⟨1976, 5, 19, 12, 5, 17, 0⟩ = true :=
  date_chop_floor_semantics.2.1 "1976/05/19 12:05:17" "%Y/%m/%d %H:%M:%S"
    ⟨1976, 5, 19, 12, 5, 17, 0⟩ (by decide)
